import Mathlib

/-!
A shallow embedding of the `ramdisk` crate (`src/lib.rs`): a fixed-capacity
in-memory block store `RamDisk<BLOCK_SIZE, NUM_BLOCKS>` offering capacity
queries, whole-block `read` and `write`, and a truncating text write
`write_from_str`.

Modelling conventions:
- bytes are `Nat` and byte arrays are `List Nat`; the Rust array types
  `[u8; BLOCK_SIZE]` and `[[u8; BLOCK_SIZE]; NUM_BLOCKS]` become lists whose
  lengths are carried as invariants (in the structure for the store, as a
  hypothesis for a caller-supplied buffer);
- `usize` subtraction, which can underflow (`self.num_blocks() - 1` when
  `NUM_BLOCKS = 0`), is `checkedSub`, returning `none` exactly when the Rust
  expression underflows — a debug build aborts there; hence every fallible
  operation returns an `Option` of an `Except RamDiskError` result, the
  outer `none` marking that abort and `some` carrying the Rust return value
  paired with the final contents of the argument the Rust code mutates.
-/

/-- The error enum `RamDiskError` of `src/lib.rs`; each variant carries the
offending block index and the reported maximum block index. -/
inductive RamDiskError where
  | IllegalBlockRead (block maxBlock : Nat)
  | IllegalBlockWrite (block maxBlock : Nat)
deriving DecidableEq

/-- Checked `usize` subtraction: `some (a - b)` when `b ≤ a`, and `none` on
underflow, where a Rust debug build aborts. -/
def checkedSub (a b : Nat) : Option Nat :=
  if b ≤ a then some (a - b) else none

/-- The struct `RamDisk<BLOCK_SIZE, NUM_BLOCKS>`: field `blocks` holds
`NUM_BLOCKS` blocks of exactly `BLOCK_SIZE` bytes each, the sizes being
enforced in Rust by the nested array type. -/
structure RamDisk (BLOCK_SIZE NUM_BLOCKS : Nat) where
  blocks : List (List Nat)
  blocks_count : blocks.length = NUM_BLOCKS
  blocks_sized : ∀ b ∈ blocks, b.length = BLOCK_SIZE

variable {BLOCK_SIZE NUM_BLOCKS : Nat}

/-- `RamDisk::new()`: all `NUM_BLOCKS` blocks zero-filled. -/
def RamDisk.new (BLOCK_SIZE NUM_BLOCKS : Nat) : RamDisk BLOCK_SIZE NUM_BLOCKS where
  blocks := List.replicate NUM_BLOCKS (List.replicate BLOCK_SIZE 0)
  blocks_count := List.length_replicate ..
  blocks_sized := by
    intro b hb
    rw [List.eq_of_mem_replicate hb]
    exact List.length_replicate ..

/-- `RamDisk::num_blocks()`: the const generic `NUM_BLOCKS`. -/
def RamDisk.num_blocks (_ : RamDisk BLOCK_SIZE NUM_BLOCKS) : Nat := NUM_BLOCKS

/-- `RamDisk::block_size()`: the const generic `BLOCK_SIZE`. -/
def RamDisk.block_size (_ : RamDisk BLOCK_SIZE NUM_BLOCKS) : Nat := BLOCK_SIZE

/-- `RamDisk::total_storage()`: `NUM_BLOCKS * BLOCK_SIZE`. -/
def RamDisk.total_storage (_ : RamDisk BLOCK_SIZE NUM_BLOCKS) : Nat :=
  NUM_BLOCKS * BLOCK_SIZE

/-- `RamDisk::read(block, buffer)`. `self.blocks.get(block)` becomes
`d.blocks[block]?`; on a hit the whole found block is copied into `buffer`
(which is why the `ok` result carries `found` as the final buffer contents),
on a miss the error is built from `checkedSub d.num_blocks 1` and the buffer
is returned untouched. -/
def RamDisk.read (d : RamDisk BLOCK_SIZE NUM_BLOCKS) (block : Nat)
    (buffer : List Nat) : Option (Except RamDiskError Unit × List Nat) :=
  match d.blocks[block]? with
  | some found => some (Except.ok (), found)
  | none =>
      (checkedSub d.num_blocks 1).map fun m =>
        (Except.error (RamDiskError.IllegalBlockRead block m), buffer)

/-- `RamDisk::write(block, buffer)`. `self.blocks.get_mut(block)` becomes
`d.blocks[block]?`; on a hit the found block is wholly replaced by `buffer`
(`*found = *buffer`), on a miss the error is built from
`checkedSub d.num_blocks 1` and the store is returned untouched. The
hypothesis `hbuf` is the Rust type constraint `buffer: &[u8; BLOCK_SIZE]`. -/
def RamDisk.write (d : RamDisk BLOCK_SIZE NUM_BLOCKS) (block : Nat)
    (buffer : List Nat) (hbuf : buffer.length = BLOCK_SIZE) :
    Option (Except RamDiskError Unit × RamDisk BLOCK_SIZE NUM_BLOCKS) :=
  match d.blocks[block]? with
  | some _ =>
      some (Except.ok (),
        { blocks := d.blocks.set block buffer
          blocks_count := by rw [List.length_set]; exact d.blocks_count
          blocks_sized := by
            intro b hb
            rcases List.mem_or_eq_of_mem_set hb with hmem | rfl
            · exact d.blocks_sized b hmem
            · exact hbuf })
  | none =>
      (checkedSub d.num_blocks 1).map fun m =>
        (Except.error (RamDiskError.IllegalBlockWrite block m), d)

/-- One iteration of the loop body of `RamDisk::write_from_str`:
`found[i] = *byte`, for the pair `p = (i, byte)`. -/
def setStep (acc : List Nat) (p : Nat × Nat) : List Nat := acc.set p.1 p.2

/-- The loop of `RamDisk::write_from_str`:
`for (i, byte) in contents.as_bytes().iter().enumerate().take(BLOCK_SIZE)`
running `found[i] = *byte` over the block `found`. -/
def strCopy (BLOCK_SIZE : Nat) (found contents : List Nat) : List Nat :=
  List.foldl setStep found (contents.enum.take BLOCK_SIZE)

/-- `RamDisk::write_from_str(block, contents)`; `contents` is the byte
sequence `contents.as_bytes()`. On a hit the found block is updated in place
by the copy loop (`strCopy`), on a miss the error is built from
`checkedSub d.num_blocks 1` and the store is returned untouched. -/
def RamDisk.write_from_str (d : RamDisk BLOCK_SIZE NUM_BLOCKS) (block : Nat)
    (contents : List Nat) :
    Option (Except RamDiskError Unit × RamDisk BLOCK_SIZE NUM_BLOCKS) :=
  match hfound : d.blocks[block]? with
  | some found =>
      some (Except.ok (),
        { blocks := d.blocks.set block (strCopy BLOCK_SIZE found contents)
          blocks_count := by rw [List.length_set]; exact d.blocks_count
          blocks_sized := by
            intro b hb
            rcases List.mem_or_eq_of_mem_set hb with hmem | rfl
            · exact d.blocks_sized b hmem
            · have hlen : ∀ (ps : List (Nat × Nat)) (acc : List Nat),
                  (List.foldl setStep acc ps).length = acc.length := by
                intro ps
                induction ps with
                | nil => intro acc; rfl
                | cons p ps ih =>
                    intro acc
                    rw [List.foldl_cons, ih]
                    simp [setStep]
              rw [strCopy, hlen]
              exact d.blocks_sized found (List.getElem?_mem hfound) })
  | none =>
      (checkedSub d.num_blocks 1).map fun m =>
        (Except.error (RamDiskError.IllegalBlockWrite block m), d)

/-! Helper lemmas about the copy loop and the store. -/

/-- The copy loop of `write_from_str` never changes the length of the block it
writes into: each iteration is a `List.set`. -/
theorem foldl_setStep_length (ps : List (Nat × Nat)) :
    ∀ acc : List Nat, (List.foldl setStep acc ps).length = acc.length := by
  induction ps with
  | nil => intro acc; rfl
  | cons p ps ih =>
      intro acc
      rw [List.foldl_cons, ih]
      simp [setStep]

/-- `strCopy` preserves the block length. -/
theorem strCopy_length (found contents : List Nat) :
    (strCopy BLOCK_SIZE found contents).length = found.length :=
  foldl_setStep_length _ _

/-- Pointwise characterisation of the copy loop, generalised over the starting
index `m` of the enumeration and the `take` bound `k`: position `j` holds the
byte `bytes[j - m]` when the loop reaches it, and the original byte of `found`
otherwise. -/
theorem foldl_setStep_enumFrom_getElem? (bytes : List Nat) :
    ∀ (k m : Nat) (found : List Nat) (j : Nat),
      (List.foldl setStep found ((bytes.enumFrom m).take k))[j]?
        = if m ≤ j ∧ j < m + min bytes.length k ∧ j < found.length
          then bytes[j - m]?
          else found[j]? := by
  induction bytes with
  | nil =>
      intro k m found j
      have hcond : ¬ (m ≤ j ∧ j < m + min (List.length ([] : List Nat)) k ∧
          j < found.length) := by
        simp only [List.length_nil]
        omega
      rw [if_neg hcond, List.enumFrom_nil, List.take_nil, List.foldl_nil]
  | cons b bs ih =>
      intro k m found j
      match k with
      | 0 =>
          have hcond : ¬ (m ≤ j ∧ j < m + min (List.length (b :: bs)) 0 ∧
              j < found.length) := by omega
          rw [if_neg hcond]
          rfl
      | k + 1 =>
          rw [List.enumFrom_cons, List.take_succ_cons, List.foldl_cons,
            ih k (m + 1) (setStep found (m, b)) j]
          simp only [setStep, List.length_set, List.length_cons]
          rcases Nat.lt_trichotomy j m with hjm | hjm | hjm
          · rw [if_neg (by omega), if_neg (by omega),
              List.getElem?_set_ne (by omega)]
          · subst hjm
            rw [if_neg (by omega)]
            by_cases hlt : j < found.length
            · rw [if_pos (by omega), List.getElem?_set_self hlt,
                Nat.sub_self, List.getElem?_cons_zero]
            · rw [if_neg (by omega),
                List.getElem?_eq_none (l := found.set j b) (by simp; omega),
                List.getElem?_eq_none (by omega)]
          · rw [List.getElem?_set_ne (by omega)]
            by_cases hcond : m + 1 ≤ j ∧ j < m + 1 + min bs.length k ∧
                j < found.length
            · rw [if_pos hcond, if_pos (by omega)]
              have hsub : j - m = (j - (m + 1)) + 1 := by omega
              rw [hsub, List.getElem?_cons_succ]
            · rw [if_neg hcond, if_neg (by omega)]

/-- Pointwise characterisation of `strCopy`: the first
`min contents.length BLOCK_SIZE` bytes come from `contents`, the rest keep
their prior values from `found`. -/
theorem strCopy_getElem? (found contents : List Nat) (j : Nat) :
    (strCopy BLOCK_SIZE found contents)[j]?
      = if j < min contents.length BLOCK_SIZE ∧ j < found.length
        then contents[j]?
        else found[j]? := by
  rw [strCopy, List.enum_eq_enumFrom, foldl_setStep_enumFrom_getElem?]
  by_cases h : j < min contents.length BLOCK_SIZE ∧ j < found.length
  · rw [if_pos (by omega), if_pos h, Nat.sub_zero]
  · rw [if_neg (by omega), if_neg h]

/-- A block found by lookup has length `BLOCK_SIZE` (store invariant). -/
theorem RamDisk.block_length {d : RamDisk BLOCK_SIZE NUM_BLOCKS} {i : Nat}
    {blk : List Nat} (h : d.blocks[i]? = some blk) : blk.length = BLOCK_SIZE :=
  d.blocks_sized blk (List.getElem?_mem h)

/-- Every in-range index hits a block of length `BLOCK_SIZE`. -/
theorem RamDisk.blocks_getElem?_in_range (d : RamDisk BLOCK_SIZE NUM_BLOCKS)
    {i : Nat} (hi : i < NUM_BLOCKS) :
    ∃ blk, d.blocks[i]? = some blk ∧ blk.length = BLOCK_SIZE := by
  have hlen : i < d.blocks.length := by rw [d.blocks_count]; exact hi
  exact ⟨d.blocks[i], List.getElem?_eq_getElem hlen,
    d.blocks_sized _ (List.getElem_mem hlen)⟩

/-- Every out-of-range lookup misses. -/
theorem RamDisk.blocks_getElem?_oob (d : RamDisk BLOCK_SIZE NUM_BLOCKS)
    {i : Nat} (hi : NUM_BLOCKS ≤ i) : d.blocks[i]? = none :=
  List.getElem?_eq_none (by rw [d.blocks_count]; exact hi)

/-- `read` on a hit returns `Ok(())` and copies the found block wholesale into
the caller's buffer. -/
theorem RamDisk.read_spec_in_range {d : RamDisk BLOCK_SIZE NUM_BLOCKS} {i : Nat}
    {blk : List Nat} (h : d.blocks[i]? = some blk) (buffer : List Nat) :
    d.read i buffer = some (Except.ok (), blk) := by
  rw [RamDisk.read, h]

/-- `read` on a miss, when `NUM_BLOCKS ≥ 1`: the subtraction
`num_blocks() - 1` does not underflow, and the result is the
`IllegalBlockRead` error with the buffer returned untouched. -/
theorem RamDisk.read_spec_oob {d : RamDisk BLOCK_SIZE NUM_BLOCKS} {i : Nat}
    (hn : 1 ≤ NUM_BLOCKS) (hi : NUM_BLOCKS ≤ i) (buffer : List Nat) :
    d.read i buffer =
      some (Except.error (RamDiskError.IllegalBlockRead i (NUM_BLOCKS - 1)),
        buffer) := by
  rw [RamDisk.read, d.blocks_getElem?_oob hi]
  simp [checkedSub, RamDisk.num_blocks, hn]

/-- `write` on a hit returns `Ok(())` and replaces block `i` with the buffer;
the rest of the store is the unchanged list with position `i` set. -/
theorem RamDisk.write_spec_in_range {d : RamDisk BLOCK_SIZE NUM_BLOCKS}
    {i : Nat} {blk : List Nat} (h : d.blocks[i]? = some blk)
    (buffer : List Nat) (hbuf : buffer.length = BLOCK_SIZE) :
    ∃ d2, d.write i buffer hbuf = some (Except.ok (), d2) ∧
      d2.blocks = d.blocks.set i buffer := by
  have key : d.write i buffer hbuf =
      some (Except.ok (),
        { blocks := d.blocks.set i buffer
          blocks_count := by rw [List.length_set]; exact d.blocks_count
          blocks_sized := by
            intro b hb
            rcases List.mem_or_eq_of_mem_set hb with hmem | rfl
            · exact d.blocks_sized b hmem
            · exact hbuf }) := by
    rw [RamDisk.write, h]
  exact ⟨_, key, rfl⟩

/-- `write` on a miss, when `NUM_BLOCKS ≥ 1`: the `IllegalBlockWrite` error,
with the store returned untouched. -/
theorem RamDisk.write_spec_oob {d : RamDisk BLOCK_SIZE NUM_BLOCKS} {i : Nat}
    (hn : 1 ≤ NUM_BLOCKS) (hi : NUM_BLOCKS ≤ i)
    (buffer : List Nat) (hbuf : buffer.length = BLOCK_SIZE) :
    d.write i buffer hbuf =
      some (Except.error (RamDiskError.IllegalBlockWrite i (NUM_BLOCKS - 1)),
        d) := by
  rw [RamDisk.write, d.blocks_getElem?_oob hi]
  simp [checkedSub, RamDisk.num_blocks, hn]

/-- `write_from_str` on a hit returns `Ok(())` and replaces block `i` with the
result of the truncating copy loop over the found block. -/
theorem RamDisk.write_from_str_spec_in_range {d : RamDisk BLOCK_SIZE NUM_BLOCKS}
    {i : Nat} {blk : List Nat} (h : d.blocks[i]? = some blk)
    (contents : List Nat) :
    ∃ d2, d.write_from_str i contents = some (Except.ok (), d2) ∧
      d2.blocks = d.blocks.set i (strCopy BLOCK_SIZE blk contents) := by
  have key : d.write_from_str i contents =
      some (Except.ok (),
        { blocks := d.blocks.set i (strCopy BLOCK_SIZE blk contents)
          blocks_count := by rw [List.length_set]; exact d.blocks_count
          blocks_sized := by
            intro b hb
            rcases List.mem_or_eq_of_mem_set hb with hmem | rfl
            · exact d.blocks_sized b hmem
            · rw [strCopy_length]
              exact d.block_length h }) := by
    rw [RamDisk.write_from_str]
    split
    · rename_i found heq
      rw [h] at heq
      cases heq
      rfl
    · rename_i heq
      rw [h] at heq
      cases heq
  exact ⟨_, key, rfl⟩

/-- `write_from_str` on a miss, when `NUM_BLOCKS ≥ 1`: the
`IllegalBlockWrite` error, with the store returned untouched. -/
theorem RamDisk.write_from_str_spec_oob {d : RamDisk BLOCK_SIZE NUM_BLOCKS}
    {i : Nat} (hn : 1 ≤ NUM_BLOCKS) (hi : NUM_BLOCKS ≤ i)
    (contents : List Nat) :
    d.write_from_str i contents =
      some (Except.error (RamDiskError.IllegalBlockWrite i (NUM_BLOCKS - 1)),
        d) := by
  rw [RamDisk.write_from_str]
  split
  · rename_i found heq
    rw [d.blocks_getElem?_oob hi] at heq
    cases heq
  · simp [checkedSub, RamDisk.num_blocks, hn]

/-- When the text is at least a block long, the copy loop replaces the block
with the first `BLOCK_SIZE` bytes of the text. -/
theorem strCopy_of_length_ge {found contents : List Nat}
    (hfound : found.length = BLOCK_SIZE) (h : BLOCK_SIZE ≤ contents.length) :
    strCopy BLOCK_SIZE found contents = contents.take BLOCK_SIZE := by
  apply List.ext_getElem?
  intro j
  rw [strCopy_getElem?]
  by_cases hj : j < BLOCK_SIZE
  · rw [if_pos (by omega), List.getElem?_take_of_lt hj]
  · rw [if_neg (by omega), List.getElem?_eq_none (by omega),
      List.getElem?_eq_none (by simp; omega)]

/-- When the text is exactly a block long, the copy loop replaces the block
with the text itself. -/
theorem strCopy_of_length_eq {found contents : List Nat}
    (hfound : found.length = BLOCK_SIZE) (h : contents.length = BLOCK_SIZE) :
    strCopy BLOCK_SIZE found contents = contents := by
  apply List.ext_getElem?
  intro j
  rw [strCopy_getElem?]
  by_cases hj : j < BLOCK_SIZE
  · rw [if_pos (by omega)]
  · rw [if_neg (by omega), List.getElem?_eq_none (by omega),
      List.getElem?_eq_none (l := contents) (by omega)]

/-- Two stores with the same block contents are equal (the remaining fields
are proofs). -/
theorem RamDisk.ext_blocks {d1 d2 : RamDisk BLOCK_SIZE NUM_BLOCKS}
    (h : d1.blocks = d2.blocks) : d1 = d2 := by
  cases d1
  cases d2
  cases h
  rfl

/-! Claim theorems. -/

/-- C1: Round-trip — for every store, every valid block index
`i < num_blocks` and every byte buffer `b` of length `block_size`,
`write(i, b)` succeeds and a following `read(i, out)` succeeds and fills the
caller's buffer with exactly `b`. -/
theorem ramdisk_write_read_round_trip (BLOCK_SIZE NUM_BLOCKS : Nat)
    (d : RamDisk BLOCK_SIZE NUM_BLOCKS) (i : Nat) (hi : i < NUM_BLOCKS)
    (b : List Nat) (hb : b.length = BLOCK_SIZE) (out : List Nat) :
    ∃ d2, d.write i b hb = some (Except.ok (), d2) ∧
      d2.read i out = some (Except.ok (), b) := by
  obtain ⟨blk, hblk, _⟩ := d.blocks_getElem?_in_range hi
  obtain ⟨d2, hw, hset⟩ := RamDisk.write_spec_in_range hblk b hb
  refine ⟨d2, hw, ?_⟩
  apply RamDisk.read_spec_in_range
  rw [hset]
  exact List.getElem?_set_self (by rw [d.blocks_count]; exact hi)

/-- C1 witness: concrete round trip on a fresh 2-by-2 store at index 0. -/
theorem ramdisk_write_read_round_trip_witness :
    0 < 2 ∧ ([3, 4] : List Nat).length = 2 ∧
      ∃ d2, (RamDisk.new 2 2).write 0 [3, 4] (by decide) =
          some (Except.ok (), d2) ∧
        d2.read 0 [9, 9] = some (Except.ok (), [3, 4]) :=
  ⟨by decide, by decide,
    ramdisk_write_read_round_trip 2 2 (RamDisk.new 2 2) 0 (by decide)
      [3, 4] (by decide) [9, 9]⟩

/-- C2: Bounds rejection — for every store (the data model fixes
`num_blocks` positive) and every index `i ≥ num_blocks`, `read` returns the
`IllegalBlockRead` error and `write` the `IllegalBlockWrite` error, each
carrying the offending index `i` and the maximum valid index
`num_blocks - 1`; the read returns the caller's buffer untouched and the
write returns the store untouched (and `read` takes the store by shared
reference, so it cannot modify it). -/
theorem ramdisk_bounds_rejection (BLOCK_SIZE NUM_BLOCKS : Nat)
    (d : RamDisk BLOCK_SIZE NUM_BLOCKS) (hn : 0 < NUM_BLOCKS)
    (i : Nat) (hi : NUM_BLOCKS ≤ i) (out b : List Nat)
    (hb : b.length = BLOCK_SIZE) :
    d.read i out =
      some (Except.error (RamDiskError.IllegalBlockRead i (NUM_BLOCKS - 1)),
        out) ∧
    d.write i b hb =
      some (Except.error (RamDiskError.IllegalBlockWrite i (NUM_BLOCKS - 1)),
        d) :=
  ⟨RamDisk.read_spec_oob hn hi out, RamDisk.write_spec_oob hn hi b hb⟩

/-- C2 witness: index 5 on a one-block store reports maximum block 0 from
both operations. -/
theorem ramdisk_bounds_rejection_witness :
    0 < 1 ∧ 1 ≤ 5 ∧ ([7, 8] : List Nat).length = 2 ∧
      ((RamDisk.new 2 1).read 5 [0, 0] =
        some (Except.error (RamDiskError.IllegalBlockRead 5 0), [0, 0]) ∧
      (RamDisk.new 2 1).write 5 [7, 8] (by decide) =
        some (Except.error (RamDiskError.IllegalBlockWrite 5 0),
          RamDisk.new 2 1)) :=
  ⟨by decide, by decide, by decide,
    ramdisk_bounds_rejection 2 1 (RamDisk.new 2 1) (by decide) 5 (by decide)
      [0, 0] [7, 8] (by decide)⟩

/-- C3 counterexample: on a store constructed with zero blocks, reading any
index reaches the error-construction expression `num_blocks() - 1` with
`num_blocks() = 0`; the `usize` subtraction underflows (`checkedSub 0 1 =
none`), so the call aborts in a debug build instead of reporting a
recoverable error value. -/
theorem ramdisk_zero_blocks_oob_underflow :
    (RamDisk.new 3 0).read 0 [0, 0, 0] = none ∧
      checkedSub ((RamDisk.new 3 0).num_blocks) 1 = none :=
  ⟨rfl, rfl⟩

/-- C3 amended: for every store with at least one block, out-of-range `read`,
`write` and `write_from_str` complete without aborting, reporting the
condition as a recoverable error value, and the error-construction expression
`num_blocks() - 1` is evaluated without underflow. -/
theorem ramdisk_oob_no_abort_of_pos_blocks (BLOCK_SIZE NUM_BLOCKS : Nat)
    (d : RamDisk BLOCK_SIZE NUM_BLOCKS) (hn : 0 < NUM_BLOCKS)
    (i : Nat) (hi : NUM_BLOCKS ≤ i) (out b text : List Nat)
    (hb : b.length = BLOCK_SIZE) :
    (∃ e, d.read i out = some (Except.error e, out)) ∧
    (∃ e, d.write i b hb = some (Except.error e, d)) ∧
    (∃ e, d.write_from_str i text = some (Except.error e, d)) ∧
    checkedSub d.num_blocks 1 = some (NUM_BLOCKS - 1) :=
  ⟨⟨_, RamDisk.read_spec_oob hn hi out⟩,
    ⟨_, RamDisk.write_spec_oob hn hi b hb⟩,
    ⟨_, RamDisk.write_from_str_spec_oob hn hi text⟩,
    by simp [checkedSub, RamDisk.num_blocks, hn]; omega⟩

/-- C3 amended witness: index 2 on a one-block store, all three operations. -/
theorem ramdisk_oob_no_abort_of_pos_blocks_witness :
    0 < 1 ∧ 1 ≤ 2 ∧ ([7, 8] : List Nat).length = 2 ∧
      ((∃ e, (RamDisk.new 2 1).read 2 [0, 0] = some (Except.error e, [0, 0])) ∧
      (∃ e, (RamDisk.new 2 1).write 2 [7, 8] (by decide) =
        some (Except.error e, RamDisk.new 2 1)) ∧
      (∃ e, (RamDisk.new 2 1).write_from_str 2 [5] =
        some (Except.error e, RamDisk.new 2 1)) ∧
      checkedSub ((RamDisk.new 2 1).num_blocks) 1 = some 0) :=
  ⟨by decide, by decide, by decide,
    ramdisk_oob_no_abort_of_pos_blocks 2 1 (RamDisk.new 2 1) (by decide) 2
      (by decide) [0, 0] [7, 8] [5] (by decide)⟩

/-- C4: Truncating text write — for every store, every valid index `i` and
every text longer than `block_size`, `write_from_str(i, text)` succeeds and
block `i` afterwards holds exactly the first `block_size` bytes of the
text. -/
theorem ramdisk_write_from_str_truncates (BLOCK_SIZE NUM_BLOCKS : Nat)
    (d : RamDisk BLOCK_SIZE NUM_BLOCKS) (i : Nat) (hi : i < NUM_BLOCKS)
    (text : List Nat) (hlong : BLOCK_SIZE < text.length) :
    ∃ d2, d.write_from_str i text = some (Except.ok (), d2) ∧
      d2.blocks[i]? = some (text.take BLOCK_SIZE) := by
  obtain ⟨blk, hblk, hlen⟩ := d.blocks_getElem?_in_range hi
  obtain ⟨d2, hw, hset⟩ := RamDisk.write_from_str_spec_in_range hblk text
  refine ⟨d2, hw, ?_⟩
  rw [hset, List.getElem?_set_self (by rw [d.blocks_count]; exact hi),
    strCopy_of_length_ge hlen (Nat.le_of_lt hlong)]

/-- C4 witness: a 3-byte text into a 2-byte block keeps its first 2 bytes. -/
theorem ramdisk_write_from_str_truncates_witness :
    0 < 1 ∧ 2 < ([7, 8, 9] : List Nat).length ∧
      ∃ d2, (RamDisk.new 2 1).write_from_str 0 [7, 8, 9] =
          some (Except.ok (), d2) ∧
        d2.blocks[0]? = some (([7, 8, 9] : List Nat).take 2) :=
  ⟨by decide, by decide,
    ramdisk_write_from_str_truncates 2 1 (RamDisk.new 2 1) 0 (by decide)
      [7, 8, 9] (by decide)⟩

/-- C5: Partial text write preserves the tail — for every store, every valid
index `i` and every text strictly shorter than `block_size`,
`write_from_str(i, text)` succeeds, bytes `[0, len)` of block `i` become the
text and bytes `[len, block_size)` keep their pre-call values. -/
theorem ramdisk_write_from_str_partial_preserves_tail
    (BLOCK_SIZE NUM_BLOCKS : Nat) (d : RamDisk BLOCK_SIZE NUM_BLOCKS)
    (i : Nat) (hi : i < NUM_BLOCKS) (text : List Nat)
    (hshort : text.length < BLOCK_SIZE) :
    ∃ old d2 nb, d.blocks[i]? = some old ∧
      d.write_from_str i text = some (Except.ok (), d2) ∧
      d2.blocks[i]? = some nb ∧
      (∀ j, j < text.length → nb[j]? = text[j]?) ∧
      (∀ j, text.length ≤ j → nb[j]? = old[j]?) := by
  obtain ⟨blk, hblk, hlen⟩ := d.blocks_getElem?_in_range hi
  obtain ⟨d2, hw, hset⟩ := RamDisk.write_from_str_spec_in_range hblk text
  refine ⟨blk, d2, strCopy BLOCK_SIZE blk text, hblk, hw, ?_, ?_, ?_⟩
  · rw [hset]
    exact List.getElem?_set_self (by rw [d.blocks_count]; exact hi)
  · intro j hj
    rw [strCopy_getElem?, if_pos (by omega)]
  · intro j hj
    by_cases hjb : j < BLOCK_SIZE
    · rw [strCopy_getElem?, if_neg (by omega)]
    · rw [strCopy_getElem?, if_neg (by omega)]

/-- C5 witness: a 1-byte text into a 2-byte block seeded by a full write; the
second byte keeps its prior value. -/
theorem ramdisk_write_from_str_partial_preserves_tail_witness :
    0 < 1 ∧ ([7] : List Nat).length < 2 ∧
      ∃ old d2 nb, (RamDisk.new 2 1).blocks[0]? = some old ∧
        (RamDisk.new 2 1).write_from_str 0 [7] = some (Except.ok (), d2) ∧
        d2.blocks[0]? = some nb ∧
        (∀ j, j < ([7] : List Nat).length → nb[j]? = ([7] : List Nat)[j]?) ∧
        (∀ j, ([7] : List Nat).length ≤ j → nb[j]? = old[j]?) :=
  ⟨by decide, by decide,
    ramdisk_write_from_str_partial_preserves_tail 2 1 (RamDisk.new 2 1) 0
      (by decide) [7] (by decide)⟩

/-- C6: Isolation — for every store and every valid index `i`, a successful
`write(i, b)` and a successful `write_from_str(i, text)` each leave every
block `j ≠ i` exactly as it was. -/
theorem ramdisk_write_isolation (BLOCK_SIZE NUM_BLOCKS : Nat)
    (d : RamDisk BLOCK_SIZE NUM_BLOCKS) (i : Nat) (hi : i < NUM_BLOCKS)
    (b text : List Nat) (hb : b.length = BLOCK_SIZE) :
    (∃ d2, d.write i b hb = some (Except.ok (), d2) ∧
      ∀ j, j ≠ i → d2.blocks[j]? = d.blocks[j]?) ∧
    (∃ d3, d.write_from_str i text = some (Except.ok (), d3) ∧
      ∀ j, j ≠ i → d3.blocks[j]? = d.blocks[j]?) := by
  obtain ⟨blk, hblk, hlen⟩ := d.blocks_getElem?_in_range hi
  constructor
  · obtain ⟨d2, hw, hset⟩ := RamDisk.write_spec_in_range hblk b hb
    refine ⟨d2, hw, ?_⟩
    intro j hj
    rw [hset, List.getElem?_set_ne (fun h => hj h.symm)]
  · obtain ⟨d3, hw, hset⟩ := RamDisk.write_from_str_spec_in_range hblk text
    refine ⟨d3, hw, ?_⟩
    intro j hj
    rw [hset, List.getElem?_set_ne (fun h => hj h.symm)]

/-- C6 witness: writing block 0 of a fresh 2-block store leaves block 1
unchanged under both operations. -/
theorem ramdisk_write_isolation_witness :
    0 < 2 ∧ ([7, 8] : List Nat).length = 2 ∧
      ((∃ d2, (RamDisk.new 2 2).write 0 [7, 8] (by decide) =
          some (Except.ok (), d2) ∧
        ∀ j, j ≠ 0 → d2.blocks[j]? = (RamDisk.new 2 2).blocks[j]?) ∧
      (∃ d3, (RamDisk.new 2 2).write_from_str 0 [5] =
          some (Except.ok (), d3) ∧
        ∀ j, j ≠ 0 → d3.blocks[j]? = (RamDisk.new 2 2).blocks[j]?)) :=
  ⟨by decide, by decide,
    ramdisk_write_isolation 2 2 (RamDisk.new 2 2) 0 (by decide) [7, 8] [5]
      (by decide)⟩

/-- C7: Out-of-range read leaves the caller's buffer untouched — the error
result returns the buffer with its pre-call contents — and, the store being
untouched (`read` takes it by shared reference), a subsequent `read` or
`write` at any valid index succeeds. -/
theorem ramdisk_oob_read_buffer_untouched (BLOCK_SIZE NUM_BLOCKS : Nat)
    (d : RamDisk BLOCK_SIZE NUM_BLOCKS) (hn : 0 < NUM_BLOCKS)
    (i : Nat) (hi : NUM_BLOCKS ≤ i) (out : List Nat) :
    d.read i out =
      some (Except.error (RamDiskError.IllegalBlockRead i (NUM_BLOCKS - 1)),
        out) ∧
    (∀ j, j < NUM_BLOCKS → ∀ out2, ∃ blk,
      d.read j out2 = some (Except.ok (), blk)) ∧
    (∀ j, j < NUM_BLOCKS → ∀ b (hb : b.length = BLOCK_SIZE),
      ∃ d2, d.write j b hb = some (Except.ok (), d2)) := by
  refine ⟨RamDisk.read_spec_oob hn hi out, ?_, ?_⟩
  · intro j hj out2
    obtain ⟨blk, hblk, _⟩ := d.blocks_getElem?_in_range hj
    exact ⟨blk, RamDisk.read_spec_in_range hblk out2⟩
  · intro j hj b hb
    obtain ⟨blk, hblk, _⟩ := d.blocks_getElem?_in_range hj
    obtain ⟨d2, hw, _⟩ := RamDisk.write_spec_in_range hblk b hb
    exact ⟨d2, hw⟩

/-- C7 witness: index 3 on a fresh one-block store; the buffer `[4, 5]` comes
back unchanged and index 0 remains usable. -/
theorem ramdisk_oob_read_buffer_untouched_witness :
    0 < 1 ∧ 1 ≤ 3 ∧
      ((RamDisk.new 2 1).read 3 [4, 5] =
        some (Except.error (RamDiskError.IllegalBlockRead 3 0), [4, 5]) ∧
      (∀ j, j < 1 → ∀ out2, ∃ blk,
        (RamDisk.new 2 1).read j out2 = some (Except.ok (), blk)) ∧
      (∀ j, j < 1 → ∀ b (hb : b.length = 2),
        ∃ d2, (RamDisk.new 2 1).write j b hb = some (Except.ok (), d2))) :=
  ⟨by decide, by decide,
    ramdisk_oob_read_buffer_untouched 2 1 (RamDisk.new 2 1) (by decide) 3
      (by decide) [4, 5]⟩

/-- C8: Capacity queries — for every store with positive block size and block
count, `num_blocks()` returns `NUM_BLOCKS`, `block_size()` returns
`BLOCK_SIZE` and `total_storage()` returns `NUM_BLOCKS * BLOCK_SIZE`; the
queries are pure functions of the store (no side effects, no error path). -/
theorem ramdisk_capacity_queries (BLOCK_SIZE NUM_BLOCKS : Nat)
    (_hs : 0 < BLOCK_SIZE) (_hn : 0 < NUM_BLOCKS)
    (d : RamDisk BLOCK_SIZE NUM_BLOCKS) :
    d.num_blocks = NUM_BLOCKS ∧ d.block_size = BLOCK_SIZE ∧
      d.total_storage = NUM_BLOCKS * BLOCK_SIZE :=
  ⟨rfl, rfl, rfl⟩

/-- C8 witness: a 16-byte, 4-block store reports 4 blocks of 16 bytes and 64
bytes of total storage. -/
theorem ramdisk_capacity_queries_witness :
    0 < 16 ∧ 0 < 4 ∧
      ((RamDisk.new 16 4).num_blocks = 4 ∧
        (RamDisk.new 16 4).block_size = 16 ∧
        (RamDisk.new 16 4).total_storage = 4 * 16) :=
  ⟨by decide, by decide,
    ramdisk_capacity_queries 16 4 (by decide) (by decide) (RamDisk.new 16 4)⟩

/-- C9: Zero-initialized construction — `new()` yields `NUM_BLOCKS` blocks of
`BLOCK_SIZE` bytes each, every byte zero, and reading any valid index of the
fresh store fills the caller's buffer with all zero bytes. -/
theorem ramdisk_new_zero_initialized (BLOCK_SIZE NUM_BLOCKS : Nat) :
    (RamDisk.new BLOCK_SIZE NUM_BLOCKS).blocks =
      List.replicate NUM_BLOCKS (List.replicate BLOCK_SIZE 0) ∧
    ∀ i, i < NUM_BLOCKS → ∀ out,
      (RamDisk.new BLOCK_SIZE NUM_BLOCKS).read i out =
        some (Except.ok (), List.replicate BLOCK_SIZE 0) := by
  refine ⟨rfl, ?_⟩
  intro i hi out
  exact RamDisk.read_spec_in_range (List.getElem?_replicate_of_lt hi) out

/-- C9 witness: a fresh 2-by-2 store is the all-zero store and reads back
zeros at index 1. -/
theorem ramdisk_new_zero_initialized_witness :
    (RamDisk.new 2 2).blocks = List.replicate 2 (List.replicate 2 0) ∧
      (RamDisk.new 2 2).read 1 [5, 5] =
        some (Except.ok (), List.replicate 2 0) :=
  ⟨(ramdisk_new_zero_initialized 2 2).1,
    (ramdisk_new_zero_initialized 2 2).2 1 (by decide) [5, 5]⟩

/-- C10: Full-length text write equals block write — for every store, every
index `i` (in range or not) and every text of length exactly `block_size`,
`write_from_str(i, text)` returns the very same outcome and post-state as
`write(i, text)`: same success or error value, identical store. -/
theorem ramdisk_write_from_str_full_eq_write (BLOCK_SIZE NUM_BLOCKS : Nat)
    (d : RamDisk BLOCK_SIZE NUM_BLOCKS) (i : Nat)
    (text : List Nat) (hlen : text.length = BLOCK_SIZE) :
    d.write_from_str i text = d.write i text hlen := by
  rcases h : d.blocks[i]? with _ | blk
  · have h1 : d.write_from_str i text =
        (checkedSub d.num_blocks 1).map fun m =>
          (Except.error (RamDiskError.IllegalBlockWrite i m), d) := by
      rw [RamDisk.write_from_str]
      split
      · rename_i found heq
        rw [h] at heq
        cases heq
      · rfl
    have h2 : d.write i text hlen =
        (checkedSub d.num_blocks 1).map fun m =>
          (Except.error (RamDiskError.IllegalBlockWrite i m), d) := by
      rw [RamDisk.write, h]
    rw [h1, h2]
  · obtain ⟨d2, hw2, hset2⟩ := RamDisk.write_from_str_spec_in_range h text
    obtain ⟨d3, hw3, hset3⟩ := RamDisk.write_spec_in_range h text hlen
    rw [hw2, hw3]
    have hblk : blk.length = BLOCK_SIZE := RamDisk.block_length h
    have : d2 = d3 := by
      apply RamDisk.ext_blocks
      rw [hset2, hset3, strCopy_of_length_eq hblk hlen]
    rw [this]

/-- C10 witness: the 2-byte text `[5, 6]` written to a fresh one-block store
gives the same result through both operations. -/
theorem ramdisk_write_from_str_full_eq_write_witness :
    ([5, 6] : List Nat).length = 2 ∧
      (RamDisk.new 2 1).write_from_str 0 [5, 6] =
        (RamDisk.new 2 1).write 0 [5, 6] (by decide) :=
  ⟨by decide,
    ramdisk_write_from_str_full_eq_write 2 1 (RamDisk.new 2 1) 0 [5, 6]
      (by decide)⟩
